import Mathlib

/-!
Shallow embedding of the cachedb repository (src/src/entry.rs, src/src/bucket.rs,
src/src/lib.rs): an in-memory sharded key/value cache with adaptive LRU eviction.

The embedding is sequential: one operation runs at a time, and the outcome of a
non-blocking value-lock acquisition (TryLock / Duration / Deadline, whose
implementation module locking_method.rs is not among the provided sources) is an
explicit boolean input of the operations that take a locking method, per spec
section 4.3.  Machine integers (usize, u32) are modelled as Nat; the only place
where wrap-around is observable in the settled claims is the u32 lru_disabled
counter of the facade, which is therefore tracked modulo 2^32.
-/

set_option linter.unusedSectionVars false

deriving instance DecidableEq for Except

namespace Cachedb

/-- Entry record (src/src/entry.rs, struct Entry): key, optional value slot
(None only while a constructor is pending), use counter, expire flag.  The
intrusive lru_link is represented by key membership in the bucket's lru_list. -/
structure Entry (K V : Type) where
  key : K
  value : Option V
  use_count : Nat
  expire : Bool
deriving Repr, DecidableEq

/-- Entry::new (src/src/entry.rs line 39): empty value slot, use_count 1,
expire false. -/
def Entry.new {K V : Type} (k : K) : Entry K V :=
  { key := k, value := none, use_count := 1, expire := false }

/-- Bucket (src/src/bucket.rs, struct Bucket): the map of entries, the intrusive
LRU list (front = coldest, represented as the list head), and the statistics and
configuration counters.  The capacity field models the backing HashSet's
capacity, which the spec-modelled maybe_evict consults. -/
structure Bucket (K V : Type) where
  map : List (Entry K V)
  lru_list : List K
  capacity : Nat
  cold : Nat
  maxused : Nat
  maxused_countdown : Nat
  cold_target : Nat
  maxused_cooldown : Nat
  maxused_reduction : Nat
  max_entries_limit : Nat
  min_entries_limit : Nat
  cold_max : Nat
  cold_min : Nat
  evict_batch : Nat
deriving Repr, DecidableEq

/-- Bucket::new (src/src/bucket.rs lines 66-82): empty containers and the
documented initial configuration values. -/
def Bucket.new {K V : Type} : Bucket K V :=
  { map := []
    lru_list := []
    capacity := 0
    cold := 0
    maxused := 0
    maxused_countdown := 0
    cold_target := 50
    maxused_cooldown := 1000
    maxused_reduction := 10000
    max_entries_limit := 10000000
    min_entries_limit := 1000
    cold_max := 60
    cold_min := 5
    evict_batch := 4 }

variable {K V : Type} [DecidableEq K]

/-- Increments the use_count of the entry with the given key (the
entry.use_count.fetch_add(1) of Bucket::use_entry). -/
def incUse (m : List (Entry K V)) (k : K) : List (Entry K V) :=
  m.map (fun e => if e.key = k then { e with use_count := e.use_count + 1 } else e)

/-- Decrements the use_count of the entry with the given key (the
entry.use_count.fetch_sub(1) of Bucket::unuse_entry). -/
def decUse (m : List (Entry K V)) (k : K) : List (Entry K V) :=
  m.map (fun e => if e.key = k then { e with use_count := e.use_count - 1 } else e)

/-- Stores a constructed value into the entry's value slot (the
wguard assignment of the construction protocol in src/src/lib.rs). -/
def setValue (m : List (Entry K V)) (k : K) (v : V) : List (Entry K V) :=
  m.map (fun e => if e.key = k then { e with value := some v } else e)

/-- Current use_count of the entry with the given key (0 when absent). -/
def useCount (m : List (Entry K V)) (k : K) : Nat :=
  match m.find? (fun e => decide (e.key = k)) with
  | some e => e.use_count
  | none => 0

/-- Current value slot of the entry with the given key (none when absent). -/
def valueAt (m : List (Entry K V)) (k : K) : Option V :=
  match m.find? (fun e => decide (e.key = k)) with
  | some e => e.value
  | none => none

/-- HashSet::get(key).is_some() on the bucket map. -/
def hasKey (m : List (Entry K V)) (k : K) : Bool :=
  m.any (fun e => decide (e.key = k))

/-- The now_used quantity of Bucket::update_maxused (src/src/bucket.rs line
119): map length plus one, minus the cold count. -/
def Bucket.nowUsed (b : Bucket K V) : Nat :=
  b.map.length + 1 - b.cold

/-- Bucket::update_maxused (src/src/bucket.rs lines 113-145): raise maxused to
max(maxused, now_used); while the countdown is positive just decrement it,
otherwise reset it to the cooldown and, when maxused is positive and differs
from now_used, decay maxused by maxused / maxused_reduction + 1. -/
def Bucket.update_maxused (b : Bucket K V) : Bucket K V :=
  let now_used := b.map.length + 1 - b.cold
  let maxused := max b.maxused now_used
  if 0 < b.maxused_countdown then
    { b with maxused := maxused, maxused_countdown := b.maxused_countdown - 1 }
  else if 0 < maxused ∧ maxused ≠ now_used then
    { b with
      maxused := maxused - (maxused / b.maxused_reduction + 1)
      maxused_countdown := b.maxused_cooldown }
  else
    { b with maxused := maxused, maxused_countdown := b.maxused_cooldown }

/-- Bucket::use_entry (src/src/bucket.rs lines 88-100): when the entry is
linked, unlink it, decrement cold and call update_maxused; in every case
increment the entry's use_count afterwards. -/
def Bucket.use_entry (b : Bucket K V) (k : K) : Bucket K V :=
  let b1 :=
    if k ∈ b.lru_list then
      Bucket.update_maxused
        { b with lru_list := b.lru_list.erase k, cold := b.cold - 1 }
    else b
  { b1 with map := incUse b1.map k }

/-- Bucket::unuse_entry (src/src/bucket.rs lines 102-108): decrement the
entry's use_count; when the old count was 1 (the count reached zero), increment
cold and push the entry onto the back of the LRU list. -/
def Bucket.unuse_entry (b : Bucket K V) (k : K) : Bucket K V :=
  let old := useCount b.map k
  let b1 := { b with map := decUse b.map k }
  if old = 1 then
    { b1 with cold := b1.cold + 1, lru_list := b1.lru_list ++ [k] }
  else b1

/-- Bucket::evict (src/src/bucket.rs lines 149-165): pop up to n entries from
the LRU front; for each, remove its record from the map and decrement cold;
return the number actually popped (the loop index at which the list drained,
or n when it never drained). -/
def Bucket.evict (b : Bucket K V) (n : Nat) : Nat × Bucket K V :=
  match n with
  | 0 => (0, b)
  | n + 1 =>
    match b.lru_list with
    | [] => (0, b)
    | k :: rest =>
      let b1 : Bucket K V :=
        { b with
          lru_list := rest
          map := b.map.filter (fun e => decide (e.key ≠ k))
          cold := b.cold - 1 }
      let r := Bucket.evict b1 n
      (r.1 + 1, r.2)

/-- Modelled from the spec: Bucket::maybe_evict is called by the facade's
insert paths (src/src/lib.rs lines 227, 266, 308) but its definition is not
among the provided sources.  Per spec section 4.2: if the map still has free
capacity, do nothing; otherwise, if the fraction of cold entries exceeds
cold_target percent, evict up to evict_batch entries from the LRU front;
otherwise let the map grow (the growth mechanism is delegated to the map, here
modelled as granting capacity for one more entry). -/
def Bucket.maybe_evict (b : Bucket K V) : Bucket K V :=
  if b.map.length < b.capacity then b
  else if b.cold_target * b.map.length < b.cold * 100 then
    (Bucket.evict b b.evict_batch).2
  else
    { b with capacity := b.capacity + 1 }

/-- CacheDb facade (src/src/lib.rs, struct CacheDb): the N buckets and the u32
lru_disabled counter (tracked modulo 2^32). -/
structure CacheDb (K V : Type) where
  buckets : List (Bucket K V)
  lru_disabled : Nat
deriving Repr, DecidableEq

/-- CacheDb::new (src/src/lib.rs lines 135-140): n fresh buckets, counter 0. -/
def CacheDb.new (K V : Type) (n : Nat) : CacheDb K V :=
  { buckets := List.replicate n Bucket.new, lru_disabled := 0 }

/-- Bucket selection: self.buckets[key.bucket::<N>()].  Out-of-range indices
(which panic in the source) read as a fresh bucket and write as a no-op. -/
def CacheDb.getBucket (db : CacheDb K V) (i : Nat) : Bucket K V :=
  db.buckets.getD i Bucket.new

/-- Writes back one bucket of the facade. -/
def CacheDb.setBucket (db : CacheDb K V) (i : Nat) (b : Bucket K V) : CacheDb K V :=
  { db with buckets := db.buckets.set i b }

/-- The errors of src/src/lib.rs (enum Error). -/
inductive CErr where
  | noEntry
  | lockUnavailable
deriving Repr, DecidableEq

/-- Errors surfaced by the get_or_insert family: either a cache error or the
boxed constructor error (DynResult). -/
inductive GErr (E : Type) where
  | cache (e : CErr)
  | ctor (e : E)
deriving Repr, DecidableEq

/-- CacheDb::query_entry (src/src/lib.rs lines 143-153): on a hit, use_entry is
applied and the updated state returned; on a miss, Error::NoEntry. -/
def CacheDb.query_entry (db : CacheDb K V) (bo : K → Nat) (k : K) :
    Except CErr (CacheDb K V) :=
  let i := bo k
  let b := db.getBucket i
  if hasKey b.map k then
    Except.ok (db.setBucket i (b.use_entry k))
  else
    Except.error CErr.noEntry

/-- CacheDb::get (src/src/lib.rs lines 165-175).  lockOk is the outcome of the
value-lock acquisition under the chosen locking method (always true for
Blocking).  On a lock failure the error is propagated while the state keeps the
use_entry effect of the lookup (no unuse_entry is invoked on that path). -/
def CacheDb.get (db : CacheDb K V) (bo : K → Nat) (lockOk : Bool) (k : K) :
    Except CErr Unit × CacheDb K V :=
  match db.query_entry bo k with
  | Except.error e => (Except.error e, db)
  | Except.ok db' =>
    if lockOk then (Except.ok (), db')
    else (Except.error CErr.lockUnavailable, db')

/-- CacheDb::get_mut (src/src/lib.rs lines 178-188): identical state effect to
get, acquiring the write side of the value lock instead. -/
def CacheDb.get_mut (db : CacheDb K V) (bo : K → Nat) (lockOk : Bool) (k : K) :
    Except CErr Unit × CacheDb K V :=
  match db.query_entry bo k with
  | Except.error e => (Except.error e, db)
  | Except.ok db' =>
    if lockOk then (Except.ok (), db')
    else (Except.error CErr.lockUnavailable, db')

/-- CacheDb::query_or_insert_entry (src/src/lib.rs lines 191-214): on a hit
(true) use_entry is applied; on a miss (false) a fresh entry (empty value,
use_count 1) is inserted into the map. -/
def CacheDb.query_or_insert_entry (db : CacheDb K V) (bo : K → Nat) (k : K) :
    Bool × CacheDb K V :=
  let i := bo k
  let b := db.getBucket i
  if hasKey b.map k then
    (true, db.setBucket i (b.use_entry k))
  else
    (false, db.setBucket i { b with map := b.map ++ [Entry.new k] })

/-- CacheDb::insert (src/src/lib.rs lines 219-242).  The constructor is
modelled by its result.  Present key: Ok(false) without running the
constructor.  Absent key: the fresh entry is inserted, maybe_evict runs when
the LRU is enabled, and the constructor result is stored on success; on a
constructor error the error is propagated and the entry stays in the map with
its empty value slot (the source removes nothing on that path). -/
def CacheDb.insert {E : Type} (db : CacheDb K V) (bo : K → Nat) (k : K)
    (ctor : Except E V) : Except E Bool × CacheDb K V :=
  match db.query_or_insert_entry bo k with
  | (true, db') => (Except.ok false, db')
  | (false, db') =>
    let i := bo k
    let db2 :=
      if db'.lru_disabled = 0 then
        db'.setBucket i ((db'.getBucket i).maybe_evict)
      else db'
    match ctor with
    | Except.ok v =>
      (Except.ok true,
        db2.setBucket i { db2.getBucket i with map := setValue (db2.getBucket i).map k v })
    | Except.error e => (Except.error e, db2)

/-- CacheDb::get_or_insert (src/src/lib.rs lines 248-287).  Hit: like get.
Miss: construction protocol as in insert (the write lock is taken with
Blocking, which cannot fail); on success the guard is returned, on a
constructor error the error is propagated with the empty-slot entry left in
the map. -/
def CacheDb.get_or_insert {E : Type} (db : CacheDb K V) (bo : K → Nat)
    (lockOk : Bool) (k : K) (ctor : Except E V) :
    Except (GErr E) Unit × CacheDb K V :=
  match db.query_or_insert_entry bo k with
  | (true, db') =>
    if lockOk then (Except.ok (), db')
    else (Except.error (GErr.cache CErr.lockUnavailable), db')
  | (false, db') =>
    let i := bo k
    let db2 :=
      if db'.lru_disabled = 0 then
        db'.setBucket i ((db'.getBucket i).maybe_evict)
      else db'
    match ctor with
    | Except.ok v =>
      (Except.ok (),
        db2.setBucket i { db2.getBucket i with map := setValue (db2.getBucket i).map k v })
    | Except.error e => (Except.error (GErr.ctor e), db2)

/-- CacheDb::get_or_insert_mut (src/src/lib.rs lines 290-329): identical state
effect to get_or_insert, returning a write guard instead. -/
def CacheDb.get_or_insert_mut {E : Type} (db : CacheDb K V) (bo : K → Nat)
    (lockOk : Bool) (k : K) (ctor : Except E V) :
    Except (GErr E) Unit × CacheDb K V :=
  match db.query_or_insert_entry bo k with
  | (true, db') =>
    if lockOk then (Except.ok (), db')
    else (Except.error (GErr.cache CErr.lockUnavailable), db')
  | (false, db') =>
    let i := bo k
    let db2 :=
      if db'.lru_disabled = 0 then
        db'.setBucket i ((db'.getBucket i).maybe_evict)
      else db'
    match ctor with
    | Except.ok v =>
      (Except.ok (),
        db2.setBucket i { db2.getBucket i with map := setValue (db2.getBucket i).map k v })
    | Except.error e => (Except.error (GErr.ctor e), db2)

/-- Guard drop (src/src/entry.rs lines 99-106 and 142-149): the guard's Drop
calls unuse_entry on its bucket and entry. -/
def CacheDb.unuse (db : CacheDb K V) (bo : K → Nat) (k : K) : CacheDb K V :=
  let i := bo k
  db.setBucket i ((db.getBucket i).unuse_entry k)

/-- CacheDb::contains_key (src/src/lib.rs lines 351-353). -/
def CacheDb.contains_key (db : CacheDb K V) (bo : K → Nat) (k : K) : Bool :=
  hasKey (db.getBucket (bo k)).map k

/-- CacheDb::disable_lru_eviction (src/src/lib.rs lines 335-338):
lru_disabled.fetch_add(1) on a u32 (wrapping). -/
def CacheDb.disable_lru_eviction (db : CacheDb K V) : CacheDb K V :=
  { db with lru_disabled := (db.lru_disabled + 1) % 4294967296 }

/-- CacheDb::enable_lru_eviction (src/src/lib.rs lines 342-345):
lru_disabled.fetch_sub(1) on a u32.  Atomic fetch_sub wraps on underflow (it
never panics), so subtracting 1 is adding 2^32 - 1 modulo 2^32. -/
def CacheDb.enable_lru_eviction (db : CacheDb K V) : CacheDb K V :=
  { db with lru_disabled := (db.lru_disabled + 4294967295) % 4294967296 }

/-- CacheDb::evict (src/src/lib.rs lines 434-444): when the LRU is enabled,
ask every bucket to evict number / N entries and subtract each bucket's count
from number, returning the remainder; when disabled, return 0 and change
nothing. -/
def CacheDb.evict (db : CacheDb K V) (number : Nat) : Nat × CacheDb K V :=
  if db.lru_disabled = 0 then
    let n := db.buckets.length
    let r := db.buckets.foldl
      (fun (acc : Nat × List (Bucket K V)) b =>
        let e := Bucket.evict b (number / n)
        (acc.1 - e.1, acc.2 ++ [e.2]))
      (number, [])
    (r.1, { db with buckets := r.2 })
  else (0, db)

/-- CacheDb::config_target_cooldown (src/src/lib.rs lines 357-364); the
target_cooldown tunable is the bucket field named maxused_cooldown in
src/src/bucket.rs (the spec treats the two names as the same tunable). -/
def CacheDb.config_target_cooldown (db : CacheDb K V) (v : Nat) : CacheDb K V :=
  { db with buckets := db.buckets.map (fun b => { b with maxused_cooldown := v }) }

/-- CacheDb::config_min_capacity_limit (src/src/lib.rs lines 369-377): stores
v / N into every bucket's min_entries_limit. -/
def CacheDb.config_min_capacity_limit (db : CacheDb K V) (v : Nat) : CacheDb K V :=
  let n := db.buckets.length
  { db with buckets := db.buckets.map (fun b => { b with min_entries_limit := v / n }) }

/-- CacheDb::config_max_capacity_limit (src/src/lib.rs lines 381-389): stores
v / N into every bucket's max_entries_limit. -/
def CacheDb.config_max_capacity_limit (db : CacheDb K V) (v : Nat) : CacheDb K V :=
  let n := db.buckets.length
  { db with buckets := db.buckets.map (fun b => { b with max_entries_limit := v / n }) }

/-- CacheDb::config_min_cache_percent (src/src/lib.rs lines 396-404): asserts
the percentage below 100 (modelled by leaving the state unchanged on the
panicking input) and stores it into every bucket's cold_min. -/
def CacheDb.config_min_cache_percent (db : CacheDb K V) (v : Nat) : CacheDb K V :=
  if v < 100 then
    { db with buckets := db.buckets.map (fun b => { b with cold_min := v }) }
  else db

/-- CacheDb::config_max_cache_percent (src/src/lib.rs lines 410-418): asserts
the percentage below 100 and stores it into every bucket's cold_max. -/
def CacheDb.config_max_cache_percent (db : CacheDb K V) (v : Nat) : CacheDb K V :=
  if v < 100 then
    { db with buckets := db.buckets.map (fun b => { b with cold_max := v }) }
  else db

/-- CacheDb::config_evict_batch (src/src/lib.rs lines 423-428). -/
def CacheDb.config_evict_batch (db : CacheDb K V) (v : Nat) : CacheDb K V :=
  { db with buckets := db.buckets.map (fun b => { b with evict_batch := v }) }

/-- One public operation of the facade, with the external inputs that decide
its branches: lock outcomes for non-blocking locking methods and constructor
results. -/
inductive Op (K V E : Type) where
  | get (k : K) (lockOk : Bool)
  | getMut (k : K) (lockOk : Bool)
  | insert (k : K) (ctor : Except E V)
  | getOrInsert (k : K) (lockOk : Bool) (ctor : Except E V)
  | getOrInsertMut (k : K) (lockOk : Bool) (ctor : Except E V)
  | evict (n : Nat)
  | guardDrop (k : K)

/-- State transition of one public operation. -/
def CacheDb.step {E : Type} (db : CacheDb K V) (bo : K → Nat) :
    Op K V E → CacheDb K V
  | Op.get k lockOk => (db.get bo lockOk k).2
  | Op.getMut k lockOk => (db.get_mut bo lockOk k).2
  | Op.insert k ctor => (db.insert bo k ctor).2
  | Op.getOrInsert k lockOk ctor => (db.get_or_insert bo lockOk k ctor).2
  | Op.getOrInsertMut k lockOk ctor => (db.get_or_insert_mut bo lockOk k ctor).2
  | Op.evict n => (db.evict n).2
  | Op.guardDrop k => db.unuse bo k

/-- Precondition of an operation: a guard drop presupposes an outstanding
guard, hence a positive use_count on its entry (use_count counts outstanding
uses); the other operations have none. -/
def Op.pre {E : Type} (db : CacheDb K V) (bo : K → Nat) : Op K V E → Prop
  | Op.guardDrop k => 0 < useCount (db.getBucket (bo k)).map k
  | _ => True

/-- The linked-iff-idle invariant P1 of one bucket: an entry of the map is in
the LRU list exactly when its use_count is zero. -/
def LinkedIffIdle (b : Bucket K V) : Prop :=
  ∀ e ∈ b.map, (e.key ∈ b.lru_list ↔ e.use_count = 0)

/-- Well-formedness of one bucket: P1, the LRU list has no duplicates, every
LRU key is backed by a map entry, and map keys are unique (as in a HashSet). -/
def BucketWF (b : Bucket K V) : Prop :=
  LinkedIffIdle b
  ∧ b.lru_list.Nodup
  ∧ (∀ k ∈ b.lru_list, k ∈ b.map.map Entry.key)
  ∧ (b.map.map Entry.key).Nodup

/-- Well-formedness of the facade: every bucket is well-formed. -/
def DbWF (db : CacheDb K V) : Prop :=
  ∀ b ∈ db.buckets, BucketWF b

instance (b : Bucket K V) : Decidable (BucketWF b) := by
  unfold BucketWF LinkedIffIdle
  exact inferInstance

instance (db : CacheDb K V) : Decidable (DbWF db) := by
  unfold DbWF
  exact inferInstance

/-- Claim C6's reading of update_maxused, written from the spec's words for
comparison with the source: the new in-use count now_used is computed as
len(map) - cold (without the source's preemptive plus one). -/
def Bucket.update_maxusedClaim (b : Bucket K V) : Bucket K V :=
  let now_used := b.map.length - b.cold
  let maxused := max b.maxused now_used
  if 0 < b.maxused_countdown then
    { b with maxused := maxused, maxused_countdown := b.maxused_countdown - 1 }
  else if 0 < maxused ∧ maxused ≠ now_used then
    { b with
      maxused := maxused - (maxused / b.maxused_reduction + 1)
      maxused_countdown := b.maxused_cooldown }
  else
    { b with maxused := maxused, maxused_countdown := b.maxused_cooldown }

/-- Claim C6's reading of use_entry, written from the claim's words for
comparison with the source: unlink and decrement cold when linked, then
increment use_count, and invoke update_maxused (on every call) with now_used
computed as len(map) - cold. -/
def Bucket.use_entryClaim (b : Bucket K V) (k : K) : Bucket K V :=
  let b1 :=
    if k ∈ b.lru_list then
      { b with lru_list := b.lru_list.erase k, cold := b.cold - 1 }
    else b
  Bucket.update_maxusedClaim { b1 with map := incUse b1.map k }

/-- Trivial shard selector for the single-bucket concrete states below. -/
def boW : Nat → Nat := fun _ => 0

/-- Failing input for C2: an empty single-bucket cache. -/
def dbC2 : CacheDb Nat Nat := CacheDb.new Nat Nat 1

/-- Failing input for C3: a single-bucket cache holding key 0 whose entry has
one outstanding use (another thread holds a guard, hence the value lock can be
contended), so it is unlinked with use_count 1. -/
def dbC3 : CacheDb Nat Nat :=
  { buckets :=
      [{ (Bucket.new : Bucket Nat Nat) with
         map := [{ key := 0, value := some 5, use_count := 1, expire := false }] }]
    lru_disabled := 0 }

/-- Failing input for C8: a single-bucket cache holding key 0 as an idle entry
(use_count 0, linked at the LRU front, cold 1). -/
def dbC8 : CacheDb Nat Nat :=
  { buckets :=
      [{ (Bucket.new : Bucket Nat Nat) with
         map := [{ key := 0, value := some 7, use_count := 0, expire := false }]
         lru_list := [0]
         cold := 1 }]
    lru_disabled := 0 }

/-- Concrete bucket with a linked idle entry, countdown 5 (for C6). -/
def bLk : Bucket Nat Nat :=
  { (Bucket.new : Bucket Nat Nat) with
    map := [{ key := 0, value := some 3, use_count := 0, expire := false }]
    lru_list := [0]
    cold := 1
    maxused_countdown := 5 }

/-- Concrete bucket with an unlinked in-use entry, countdown 5 (for C6). -/
def bUn : Bucket Nat Nat :=
  { (Bucket.new : Bucket Nat Nat) with
    map := [{ key := 0, value := some 3, use_count := 1, expire := false }]
    lru_list := []
    cold := 0
    maxused_countdown := 5 }

/-- Concrete bucket with two idle entries in LRU order and one in-use entry
(for the C5 witness). -/
def bEv : Bucket Nat Nat :=
  { (Bucket.new : Bucket Nat Nat) with
    map := [{ key := 0, value := some 1, use_count := 0, expire := false },
            { key := 1, value := some 2, use_count := 0, expire := false },
            { key := 2, value := some 3, use_count := 1, expire := false }]
    lru_list := [0, 1]
    cold := 2 }

/-! ## Theorems -/

/-- C2: CacheDb::insert, get_or_insert and get_or_insert_mut do NOT remove the
freshly inserted entry when the constructor fails: on the empty cache dbC2,
each of the three calls with a failing constructor surfaces the error while
the map still holds the record for key 0 with an empty value slot, observable
through contains_key.  This contradicts the claim (and spec section 7), so the
claim is right and the code is wrong. -/
theorem insert_ctor_error_leaves_empty_entry :
    (CacheDb.insert dbC2 boW 0 (Except.error ())).1 = Except.error ()
    ∧ ((CacheDb.insert dbC2 boW 0 (Except.error ())).2.getBucket 0).map =
        [{ key := 0, value := none, use_count := 1, expire := false }]
    ∧ CacheDb.contains_key (CacheDb.insert dbC2 boW 0 (Except.error ())).2 boW 0 = true
    ∧ (CacheDb.get_or_insert dbC2 boW true 0 (Except.error ())).1 =
        Except.error (GErr.ctor ())
    ∧ valueAt ((CacheDb.get_or_insert dbC2 boW true 0 (Except.error ())).2.getBucket 0).map 0
        = none
    ∧ CacheDb.contains_key (CacheDb.get_or_insert dbC2 boW true 0 (Except.error ())).2 boW 0
        = true
    ∧ (CacheDb.get_or_insert_mut dbC2 boW true 0 (Except.error ())).1 =
        Except.error (GErr.ctor ())
    ∧ CacheDb.contains_key (CacheDb.get_or_insert_mut dbC2 boW true 0 (Except.error ())).2 boW 0
        = true := by
  decide

/-- C3: when the value-lock acquisition fails after a successful lookup,
CacheDb::get and CacheDb::get_mut return LockUnavailable WITHOUT calling
unuse_entry: on dbC3 (entry for key 0 with use_count 1), the failed call leaves
use_count at 2 instead of rolling it back to 1, and the entry stays unlinked.
This contradicts the claim (and spec section 5), so the claim is right and the
code is wrong. -/
theorem get_lock_failure_leaks_use_count :
    (CacheDb.get dbC3 boW false 0).1 = Except.error CErr.lockUnavailable
    ∧ useCount ((CacheDb.get dbC3 boW false 0).2.getBucket 0).map 0 = 2
    ∧ ((CacheDb.get dbC3 boW false 0).2.getBucket 0).lru_list = []
    ∧ (CacheDb.get_mut dbC3 boW false 0).1 = Except.error CErr.lockUnavailable
    ∧ useCount ((CacheDb.get_mut dbC3 boW false 0).2.getBucket 0).map 0 = 2
    ∧ useCount (dbC3.getBucket 0).map 0 = 1 := by
  decide

/-- C8: CacheDb::insert on a key that is already present returns Ok(false)
without running the constructor, but it does NOT leave the entry unchanged: on
dbC8 (idle entry for key 0, use_count 0, linked), query_or_insert_entry calls
use_entry, so after the call use_count is 1 and the entry has been unlinked
from the LRU list, with no matching unuse_entry anywhere.  Only the stored
value is unchanged.  The claim is right (use_count is supposed to grow only on
a successful value-lock acquisition) and the code is wrong. -/
theorem insert_present_mutates_entry :
    (CacheDb.insert dbC8 boW 0 (Except.error ())).1 = Except.ok false
    ∧ useCount (dbC8.getBucket 0).map 0 = 0
    ∧ (dbC8.getBucket 0).lru_list = [0]
    ∧ useCount ((CacheDb.insert dbC8 boW 0 (Except.error ())).2.getBucket 0).map 0 = 1
    ∧ ((CacheDb.insert dbC8 boW 0 (Except.error ())).2.getBucket 0).lru_list = []
    ∧ valueAt ((CacheDb.insert dbC8 boW 0 (Except.error ())).2.getBucket 0).map 0 = some 7 := by
  decide

/-- C9: an unbalanced CacheDb::enable_lru_eviction is NOT an error: the u32
fetch_sub wraps (atomic arithmetic never panics, despite the doc comment on
the source function announcing an integer-underflow panic), silently leaving
lru_disabled at 4294967295; the cache remains usable, with eviction
suppressed (evict returns 0).  The code contradicts its own documentation, so
this is recorded as a code bug. -/
theorem enable_lru_underflow_wraps :
    (CacheDb.enable_lru_eviction (CacheDb.new Nat Nat 1)).lru_disabled = 4294967295
    ∧ (CacheDb.evict (CacheDb.enable_lru_eviction (CacheDb.new Nat Nat 1)) 5).1 = 0
    ∧ (CacheDb.disable_lru_eviction
        (CacheDb.enable_lru_eviction (CacheDb.new Nat Nat 1))).lru_disabled = 0 := by
  decide

/-- C6 counterexample: Bucket::use_entry does not behave as the claim states.
On bLk (linked entry, countdown 5) the source raises maxused to 2, because
now_used is len(map) + 1 - cold = 2, while the claimed formula len(map) - cold
yields 1; on bUn (unlinked entry) the source leaves maxused_countdown at 5
because update_maxused is only invoked when the entry was linked, while the
claimed unconditional invocation would decrement it to 4. -/
theorem use_entry_claim_counterexample :
    (Bucket.use_entry bLk 0).maxused = 2
    ∧ (Bucket.use_entryClaim bLk 0).maxused = 1
    ∧ (Bucket.use_entry bUn 0).maxused_countdown = 5
    ∧ (Bucket.use_entryClaim bUn 0).maxused_countdown = 4
    ∧ Bucket.use_entry bLk 0 ≠ Bucket.use_entryClaim bLk 0 := by
  decide

/-- Arithmetic of the decay step: for a divisor of at least 2 and a positive
m, the decrement m / r + 1 never exceeds m. -/
theorem div_succ_le_self (m r : Nat) (h2 : 2 ≤ r) (hm : 0 < m) : m / r + 1 ≤ m := by
  have h1 : m / r ≤ m / 2 := Nat.div_le_div_left h2 (by norm_num)
  have h3 : m / 2 < m := Nat.div_lt_self hm (by norm_num)
  omega

/-- C7: Bucket::update_maxused first raises maxused to max(maxused, now_used);
then, when the countdown is positive, it only decrements the countdown;
otherwise it resets the countdown to maxused_cooldown and, provided the raised
maxused is positive and differs from now_used, lowers maxused by exactly
maxused / maxused_reduction + 1 (the last conjunct shows the subtraction is
exact, i.e. the decrement never exceeds maxused, for any reduction of at
least 2; the source fixes it at 10000). -/
theorem update_maxused_def (b : Bucket K V) :
    Bucket.update_maxused b =
      (if 0 < b.maxused_countdown then
        { b with maxused := max b.maxused b.nowUsed
                 maxused_countdown := b.maxused_countdown - 1 }
      else if 0 < max b.maxused b.nowUsed ∧ max b.maxused b.nowUsed ≠ b.nowUsed then
        { b with maxused := max b.maxused b.nowUsed
                   - (max b.maxused b.nowUsed / b.maxused_reduction + 1)
                 maxused_countdown := b.maxused_cooldown }
      else
        { b with maxused := max b.maxused b.nowUsed
                 maxused_countdown := b.maxused_cooldown }) := rfl

theorem update_maxused_spec (b : Bucket K V) (h2 : 2 ≤ b.maxused_reduction) :
    (Bucket.update_maxused b).maxused =
      (if 0 < b.maxused_countdown then max b.maxused b.nowUsed
       else if 0 < max b.maxused b.nowUsed ∧ max b.maxused b.nowUsed ≠ b.nowUsed then
         max b.maxused b.nowUsed - (max b.maxused b.nowUsed / b.maxused_reduction + 1)
       else max b.maxused b.nowUsed)
    ∧ (Bucket.update_maxused b).maxused_countdown =
      (if 0 < b.maxused_countdown then b.maxused_countdown - 1 else b.maxused_cooldown)
    ∧ (0 < max b.maxused b.nowUsed →
        max b.maxused b.nowUsed / b.maxused_reduction + 1 ≤ max b.maxused b.nowUsed) := by
  refine ⟨?_, ?_, fun hm => div_succ_le_self _ _ h2 hm⟩ <;>
    · by_cases hcd : 0 < b.maxused_countdown
      · simp only [update_maxused_def b, if_pos hcd]
      · by_cases hf : 0 < max b.maxused b.nowUsed ∧ max b.maxused b.nowUsed ≠ b.nowUsed
        · simp only [update_maxused_def b, if_neg hcd, if_pos hf]
        · simp only [update_maxused_def b, if_neg hcd, if_neg hf]

/-- C7 witness: on a fresh bucket the countdown is reset to the cooldown. -/
theorem update_maxused_spec_witness :
    (Bucket.update_maxused (Bucket.new : Bucket Nat Nat)).maxused_countdown = 1000 := by
  rw [(update_maxused_spec (Bucket.new : Bucket Nat Nat) (by decide)).2.1]
  decide

/-- C10: the decay subtraction of update_maxused cannot underflow.  A fresh
bucket has maxused_reduction 10000; none of the public configuration setters
writes maxused_reduction; and for any reduction of at least 2, update_maxused
either decrements the raised maxused by exactly maxused / reduction + 1
(the sum restores the raised value, so the subtraction did not truncate) or
leaves it at the raised value. -/
theorem maxused_decay_no_underflow :
    (Bucket.new : Bucket Nat Nat).maxused_reduction = 10000
    ∧ (∀ (db : CacheDb Nat Nat) (v : Nat),
        (db.config_target_cooldown v).buckets.map Bucket.maxused_reduction
            = db.buckets.map Bucket.maxused_reduction
        ∧ (db.config_min_capacity_limit v).buckets.map Bucket.maxused_reduction
            = db.buckets.map Bucket.maxused_reduction
        ∧ (db.config_max_capacity_limit v).buckets.map Bucket.maxused_reduction
            = db.buckets.map Bucket.maxused_reduction
        ∧ (db.config_min_cache_percent v).buckets.map Bucket.maxused_reduction
            = db.buckets.map Bucket.maxused_reduction
        ∧ (db.config_max_cache_percent v).buckets.map Bucket.maxused_reduction
            = db.buckets.map Bucket.maxused_reduction
        ∧ (db.config_evict_batch v).buckets.map Bucket.maxused_reduction
            = db.buckets.map Bucket.maxused_reduction)
    ∧ (∀ b : Bucket Nat Nat, 2 ≤ b.maxused_reduction →
        (Bucket.update_maxused b).maxused
            + (max b.maxused b.nowUsed / b.maxused_reduction + 1)
          = max b.maxused b.nowUsed
        ∨ (Bucket.update_maxused b).maxused = max b.maxused b.nowUsed) := by
  refine ⟨rfl, fun db v => ?_, fun b h2 => ?_⟩
  · refine ⟨?_, ?_, ?_, ?_, ?_, ?_⟩ <;>
      simp [CacheDb.config_target_cooldown, CacheDb.config_min_capacity_limit,
        CacheDb.config_max_capacity_limit, CacheDb.config_min_cache_percent,
        CacheDb.config_max_cache_percent, CacheDb.config_evict_batch, List.map_map] <;>
      split_ifs <;> simp [List.map_map]
  · by_cases hcd : 0 < b.maxused_countdown
    · right
      simp only [update_maxused_def b, if_pos hcd]
    · by_cases hf : 0 < max b.maxused b.nowUsed ∧ max b.maxused b.nowUsed ≠ b.nowUsed
      · left
        simp only [update_maxused_def b, if_neg hcd, if_pos hf]
        exact Nat.sub_add_cancel (div_succ_le_self _ _ h2 hf.1)
      · right
        simp only [update_maxused_def b, if_neg hcd, if_neg hf]

/-- C10 witness: the no-underflow disjunction instantiated at the concrete
bucket bLk, whose reduction is the initial 10000. -/
theorem maxused_decay_no_underflow_witness :
    (Bucket.update_maxused bLk).maxused
        + (max bLk.maxused bLk.nowUsed / bLk.maxused_reduction + 1)
      = max bLk.maxused bLk.nowUsed
    ∨ (Bucket.update_maxused bLk).maxused = max bLk.maxused bLk.nowUsed :=
  maxused_decay_no_underflow.2.2 bLk (by decide)

/-- Bucket::evict never reports more evictions than requested. -/
theorem evict_count_le (b : Bucket K V) (n : Nat) : (Bucket.evict b n).1 ≤ n := by
  induction n generalizing b with
  | zero => simp [Bucket.evict]
  | succ n ih =>
    unfold Bucket.evict
    match h : b.lru_list with
    | [] => simp
    | k :: rest =>
      simp only []
      exact Nat.succ_le_succ (ih _)

/-- Characterization of the facade eviction fold: the running remainder is the
initial number minus the sum of the per-bucket counts, and the buckets are
replaced by their evicted versions in order. -/
theorem evict_foldl (bs : List (Bucket K V)) (m a : Nat) (acc : List (Bucket K V)) :
    bs.foldl
        (fun (acc : Nat × List (Bucket K V)) b =>
          let e := Bucket.evict b m
          (acc.1 - e.1, acc.2 ++ [e.2]))
        (a, acc)
      = (a - (bs.map (fun b => (Bucket.evict b m).1)).sum,
         acc ++ bs.map (fun b => (Bucket.evict b m).2)) := by
  induction bs generalizing a acc with
  | nil => simp
  | cons b t ih =>
    simp only [List.foldl_cons, List.map_cons, List.sum_cons, List.append_assoc,
      List.singleton_append, ih]
    rw [Nat.sub_sub]

/-- C4: CacheDb::evict distributes number / N evictions to each of the N
buckets and returns number minus the total actually evicted (the second
conjunct shows the total never exceeds number, so the subtraction is exact);
when lru_disabled is positive it removes nothing and returns 0. -/
theorem cachedb_evict_distribution (db : CacheDb K V) (number : Nat) :
    (CacheDb.evict db number =
      if db.lru_disabled = 0 then
        (number -
          (db.buckets.map (fun b => (Bucket.evict b (number / db.buckets.length)).1)).sum,
         { db with buckets :=
            db.buckets.map (fun b => (Bucket.evict b (number / db.buckets.length)).2) })
      else (0, db))
    ∧ (db.buckets.map (fun b => (Bucket.evict b (number / db.buckets.length)).1)).sum
        ≤ number := by
  constructor
  · unfold CacheDb.evict
    by_cases hd : db.lru_disabled = 0
    · simp only [if_pos hd, evict_foldl, List.nil_append]
    · simp only [if_neg hd]
  · have hb : ∀ x ∈ db.buckets.map
        (fun b => (Bucket.evict b (number / db.buckets.length)).1),
        x ≤ number / db.buckets.length := by
      intro x hx
      rcases List.mem_map.mp hx with ⟨b, _, rfl⟩
      exact evict_count_le b _
    have hsum := List.sum_le_card_nsmul _ _ hb
    simp only [List.length_map, smul_eq_mul] at hsum
    calc (db.buckets.map (fun b => (Bucket.evict b (number / db.buckets.length)).1)).sum
        ≤ db.buckets.length * (number / db.buckets.length) := hsum
      _ ≤ number := Nat.mul_div_le number db.buckets.length

/-- Unconditional characterization of Bucket::evict: the count is
min(n, length of the LRU list), the LRU list loses its first n keys, the map
loses exactly the records whose keys were among the first n of the LRU list,
and cold is decremented once per pop. -/
theorem evict_unfold (n : Nat) (b : Bucket K V) :
    (Bucket.evict b n).1 = min n b.lru_list.length
    ∧ (Bucket.evict b n).2.lru_list = b.lru_list.drop n
    ∧ (Bucket.evict b n).2.map
        = b.map.filter (fun e => decide (e.key ∉ b.lru_list.take n))
    ∧ (Bucket.evict b n).2.cold = b.cold - (Bucket.evict b n).1 := by
  induction n generalizing b with
  | zero => simp [Bucket.evict]
  | succ n ih =>
    match hl : b.lru_list with
    | [] =>
      unfold Bucket.evict
      rw [hl]
      simp [hl]
    | k :: rest =>
      unfold Bucket.evict
      rw [hl]
      simp only []
      obtain ⟨ih1, ih2, ih3, ih4⟩ := ih
        { b with
          lru_list := rest
          map := b.map.filter (fun e => decide (e.key ≠ k))
          cold := b.cold - 1 }
      refine ⟨?_, ?_, ?_, ?_⟩
      · simp only [ih1, hl, List.length_cons]
        exact (Nat.succ_min_succ n rest.length).symm
      · simp only [ih2, hl, List.drop_succ_cons]
      · simp only [ih3, hl, List.take_succ_cons, List.filter_filter]
        apply List.filter_congr
        intro e _
        simp [List.mem_cons, not_or, Bool.and_comm]
      · simp only [ih4, ih1, hl, List.length_cons]
        omega

/-- C5: under the cold-count invariant (cold equals the LRU list length),
Bucket::evict pops entries only from the LRU front (the remaining list is the
drop of the original), removes exactly the popped records from the map and
decrements cold once per pop (the sum restores the original cold, so at most
min(n, cold) entries are removed), and returns min(n, cold): n when the list
does not drain, the number popped before draining otherwise. -/
theorem bucket_evict_spec (b : Bucket K V) (n : Nat)
    (hc : b.cold = b.lru_list.length) :
    (Bucket.evict b n).1 = min n b.cold
    ∧ (Bucket.evict b n).2.lru_list = b.lru_list.drop n
    ∧ (Bucket.evict b n).2.map
        = b.map.filter (fun e => decide (e.key ∉ b.lru_list.take n))
    ∧ (Bucket.evict b n).2.cold + (Bucket.evict b n).1 = b.cold
    ∧ (n ≤ b.cold → (Bucket.evict b n).1 = n)
    ∧ (b.cold < n → (Bucket.evict b n).1 = b.cold) := by
  obtain ⟨h1, h2, h3, h4⟩ := evict_unfold n b
  rw [← hc] at h1
  refine ⟨h1, h2, h3, ?_, ?_, ?_⟩
  · rw [h4, h1]
    omega
  · intro hn
    rw [h1]
    omega
  · intro hn
    rw [h1]
    omega

/-- C5 witness: the characterization applied to the concrete bucket bEv at
n = 5: both idle entries are evicted and cold returns to 0 plus the count. -/
theorem bucket_evict_spec_witness :
    (Bucket.evict bEv 5).1 = min 5 bEv.cold
    ∧ (Bucket.evict bEv 5).2.cold + (Bucket.evict bEv 5).1 = bEv.cold := by
  have h := bucket_evict_spec bEv 5 (by decide)
  exact ⟨h.1, h.2.2.2.1⟩

/-- hasKey coincides with membership of the key among the map's keys. -/
theorem hasKey_iff (m : List (Entry K V)) (k : K) :
    hasKey m k = true ↔ k ∈ m.map Entry.key := by
  unfold hasKey
  rw [List.any_eq_true]
  constructor
  · rintro ⟨e, he, hek⟩
    exact List.mem_map.mpr ⟨e, he, by simpa using hek⟩
  · intro h
    rcases List.mem_map.mp h with ⟨e, he, hek⟩
    exact ⟨e, he, by simp [hek]⟩

/-- incUse does not change the key column of the map. -/
theorem keys_incUse (m : List (Entry K V)) (k : K) :
    (incUse m k).map Entry.key = m.map Entry.key := by
  unfold incUse
  rw [List.map_map]
  apply List.map_congr_left
  intro e _
  by_cases h : e.key = k <;> simp [h]

/-- decUse does not change the key column of the map. -/
theorem keys_decUse (m : List (Entry K V)) (k : K) :
    (decUse m k).map Entry.key = m.map Entry.key := by
  unfold decUse
  rw [List.map_map]
  apply List.map_congr_left
  intro e _
  by_cases h : e.key = k <;> simp [h]

/-- setValue does not change the key column of the map. -/
theorem keys_setValue (m : List (Entry K V)) (k : K) (v : V) :
    (setValue m k v).map Entry.key = m.map Entry.key := by
  unfold setValue
  rw [List.map_map]
  apply List.map_congr_left
  intro e _
  by_cases h : e.key = k <;> simp [h]

/-- The lookup in an incUse-updated map finds the bumped version of whatever
the original lookup finds. -/
theorem find?_incUse (m : List (Entry K V)) (k : K) :
    (incUse m k).find? (fun e => decide (e.key = k))
      = (m.find? (fun e => decide (e.key = k))).map
          (fun e => { e with use_count := e.use_count + 1 }) := by
  induction m with
  | nil => rfl
  | cons e t ih =>
    by_cases h : e.key = k
    · have h1 : incUse (e :: t) k
          = { e with use_count := e.use_count + 1 } :: incUse t k := by
        simp [incUse, if_pos h]
      rw [h1, List.find?_cons_of_pos _ (by simp [h]),
        List.find?_cons_of_pos _ (by simp [h])]
      rfl
    · have h1 : incUse (e :: t) k = e :: incUse t k := by
        simp [incUse, if_neg h]
      rw [h1, List.find?_cons_of_neg _ (by simp [h]),
        List.find?_cons_of_neg _ (by simp [h]), ih]

/-- A present key is found by the map lookup. -/
theorem find?_isSome_of_hasKey (m : List (Entry K V)) (k : K)
    (hk : hasKey m k = true) :
    (m.find? (fun e => decide (e.key = k))).isSome = true := by
  rcases List.mem_map.mp ((hasKey_iff m k).mp hk) with ⟨e, he, hek⟩
  exact List.find?_isSome.mpr ⟨e, he, by simp [hek]⟩

/-- incUse bumps the looked-up use_count by one when the key is present. -/
theorem useCount_incUse (m : List (Entry K V)) (k : K) (hk : hasKey m k = true) :
    useCount (incUse m k) k = useCount m k + 1 := by
  unfold useCount
  rw [find?_incUse]
  rcases hfind : m.find? (fun e => decide (e.key = k)) with _ | e
  · have := find?_isSome_of_hasKey m k hk
    rw [hfind] at this
    cases this
  · rw [hfind]
    rfl

/-- incUse does not change the looked-up value slot. -/
theorem valueAt_incUse (m : List (Entry K V)) (k : K) :
    valueAt (incUse m k) k = valueAt m k := by
  unfold valueAt
  rw [find?_incUse]
  rcases hfind : m.find? (fun e => decide (e.key = k)) with _ | e <;> rw [hfind] <;> rfl

/-- When the map keys are unique, useCount at a member's key is that member's
use_count. -/
theorem useCount_eq_of_mem (m : List (Entry K V)) (e : Entry K V)
    (hnd : (m.map Entry.key).Nodup) (he : e ∈ m) : useCount m e.key = e.use_count := by
  induction m with
  | nil => cases he
  | cons a t ih =>
    rcases List.mem_cons.mp he with rfl | het
    · unfold useCount
      rw [List.find?_cons_of_pos _ (by simp)]
    · by_cases h : a.key = e.key
      · exfalso
        have hkey : e.key ∈ t.map Entry.key := List.mem_map.mpr ⟨e, het, rfl⟩
        simp only [List.map_cons, List.nodup_cons] at hnd
        exact hnd.1 (h ▸ hkey)
      · have hnd' : (t.map Entry.key).Nodup := by
          simp only [List.map_cons, List.nodup_cons] at hnd
          exact hnd.2
        unfold useCount
        rw [List.find?_cons_of_neg _ (by simp [h])]
        exact ih hnd' het

/-- update_maxused leaves the map untouched. -/
theorem update_maxused_map (b : Bucket K V) : (Bucket.update_maxused b).map = b.map := by
  rw [update_maxused_def]
  split_ifs <;> rfl

/-- update_maxused leaves the LRU list untouched. -/
theorem update_maxused_lru (b : Bucket K V) :
    (Bucket.update_maxused b).lru_list = b.lru_list := by
  rw [update_maxused_def]
  split_ifs <;> rfl

/-- update_maxused leaves cold untouched. -/
theorem update_maxused_cold (b : Bucket K V) :
    (Bucket.update_maxused b).cold = b.cold := by
  rw [update_maxused_def]
  split_ifs <;> rfl

/-- The countdown handling of update_maxused: decrement while positive, reset
to the cooldown otherwise. -/
theorem update_maxused_countdown (b : Bucket K V) :
    (Bucket.update_maxused b).maxused_countdown =
      (if 0 < b.maxused_countdown then b.maxused_countdown - 1
       else b.maxused_cooldown) := by
  rw [update_maxused_def]
  split_ifs <;> rfl

/-- While the countdown is positive, update_maxused only raises maxused to
max(maxused, now_used). -/
theorem update_maxused_maxused_pos (b : Bucket K V) (h : 0 < b.maxused_countdown) :
    (Bucket.update_maxused b).maxused = max b.maxused b.nowUsed := by
  rw [update_maxused_def, if_pos h]

/-- C6, amended: Bucket::use_entry always increments the entry's use_count and
removes its key from the LRU list (a no-op when unlinked), keeping keys and
value slots intact.  When the entry was linked, its use_count was 0, cold is
decremented by exactly one, and update_maxused is invoked, with the in-use
count computed as len(map) + 1 - cold using the already decremented cold.
When the entry was not linked, update_maxused is not invoked: cold, maxused
and the countdown are unchanged. -/
theorem use_entry_amended (b : Bucket K V) (k : K) (hwf : BucketWF b)
    (hk : hasKey b.map k = true) (hc : b.cold = b.lru_list.length) :
    useCount (Bucket.use_entry b k).map k = useCount b.map k + 1
    ∧ (Bucket.use_entry b k).lru_list = b.lru_list.erase k
    ∧ (Bucket.use_entry b k).map.map Entry.key = b.map.map Entry.key
    ∧ valueAt (Bucket.use_entry b k).map k = valueAt b.map k
    ∧ (k ∈ b.lru_list →
        useCount b.map k = 0
        ∧ (Bucket.use_entry b k).cold + 1 = b.cold
        ∧ (Bucket.use_entry b k).maxused_countdown =
            (if 0 < b.maxused_countdown then b.maxused_countdown - 1
             else b.maxused_cooldown)
        ∧ (0 < b.maxused_countdown →
            (Bucket.use_entry b k).maxused
              = max b.maxused (b.map.length + 1 - (b.cold - 1))))
    ∧ (k ∉ b.lru_list →
        (Bucket.use_entry b k).cold = b.cold
        ∧ (Bucket.use_entry b k).maxused = b.maxused
        ∧ (Bucket.use_entry b k).maxused_countdown = b.maxused_countdown) := by
  by_cases hmem : k ∈ b.lru_list
  · have hru : Bucket.use_entry b k =
        { Bucket.update_maxused
            { b with lru_list := b.lru_list.erase k, cold := b.cold - 1 } with
          map := incUse
            (Bucket.update_maxused
              { b with lru_list := b.lru_list.erase k, cold := b.cold - 1 }).map k } := by
      simp only [Bucket.use_entry, if_pos hmem]
    have hmap : (Bucket.use_entry b k).map = incUse b.map k := by
      rw [hru, update_maxused_map]
    have hcount0 : useCount b.map k = 0 := by
      rcases List.mem_map.mp ((hwf.2.2.1) k hmem) with ⟨e, he, hek⟩
      have := (hwf.1 e he).mp (hek ▸ hmem)
      rw [← hek, useCount_eq_of_mem b.map e hwf.2.2.2 he]
      exact this
    have hpos : 0 < b.cold := by
      rw [hc]
      exact List.length_pos.mpr (List.ne_nil_of_mem hmem)
    refine ⟨?_, ?_, ?_, ?_, fun _ => ⟨hcount0, ?_, ?_, ?_⟩, fun hn => absurd hmem hn⟩
    · rw [hmap]
      exact useCount_incUse b.map k hk
    · rw [hru]
      show (Bucket.update_maxused _).lru_list = _
      rw [update_maxused_lru]
    · rw [hmap]
      exact keys_incUse b.map k
    · rw [hmap]
      exact valueAt_incUse b.map k
    · rw [hru]
      show (Bucket.update_maxused _).cold + 1 = b.cold
      rw [update_maxused_cold]
      show b.cold - 1 + 1 = b.cold
      omega
    · rw [hru]
      show (Bucket.update_maxused _).maxused_countdown = _
      rw [update_maxused_countdown]
    · intro hcd
      rw [hru]
      show (Bucket.update_maxused _).maxused = _
      exact update_maxused_maxused_pos _ hcd
  · have hru : Bucket.use_entry b k = { b with map := incUse b.map k } := by
      simp only [Bucket.use_entry, if_neg hmem]
    refine ⟨?_, ?_, ?_, ?_, fun hn => absurd hn hmem, fun _ => ?_⟩
    · rw [hru]
      exact useCount_incUse b.map k hk
    · rw [hru, List.erase_of_not_mem hmem]
    · rw [hru]
      exact keys_incUse b.map k
    · rw [hru]
      exact valueAt_incUse b.map k
    · rw [hru]
      exact ⟨rfl, rfl, rfl⟩

/-- C6 witness: the amended description applied to the concrete linked state
bLk, whose entry's use_count goes from 0 to 1. -/
theorem use_entry_amended_witness :
    useCount (Bucket.use_entry bLk 0).map 0 = useCount bLk.map 0 + 1
    ∧ (Bucket.use_entry bLk 0).lru_list = bLk.lru_list.erase 0 := by
  have h := use_entry_amended bLk 0 (by decide) (by decide) (by decide)
  exact ⟨h.1, h.2.1⟩

/-- Bucket well-formedness only depends on the map and the LRU list. -/
theorem BucketWF_congr (a b : Bucket K V) (hmap : b.map = a.map)
    (hlru : b.lru_list = a.lru_list) (h : BucketWF a) : BucketWF b := by
  unfold BucketWF LinkedIffIdle at h ⊢
  rw [hmap, hlru]
  exact h

/-- A fresh bucket is well-formed. -/
theorem BucketWF_new : BucketWF (Bucket.new : Bucket K V) := by
  refine ⟨?_, ?_, ?_, ?_⟩ <;> simp [Bucket.new, LinkedIffIdle]

/-- Unlinking a linked entry and bumping its use_count preserves
well-formedness (the case of use_entry on a linked entry). -/
theorem erase_incUse_WF (b : Bucket K V) (k : K) (hwf : BucketWF b) :
    BucketWF { b with map := incUse b.map k, lru_list := b.lru_list.erase k } := by
  obtain ⟨hp1, hnd, hsub, hknd⟩ := hwf
  refine ⟨?_, ?_, ?_, ?_⟩
  · intro e' he'
    dsimp only at he' ⊢
    rcases List.mem_map.mp he' with ⟨e, he, rfl⟩
    by_cases hek : e.key = k
    · rw [if_pos hek]
      dsimp only
      constructor
      · intro hin
        exact absurd ((hnd.mem_erase_iff).mp (hek ▸ hin)).1 (by simp)
      · intro h0
        cases h0
    · rw [if_neg hek]
      rw [hnd.mem_erase_iff]
      constructor
      · intro h
        exact (hp1 e he).mp h.2
      · intro h
        exact ⟨hek, (hp1 e he).mpr h⟩
  · exact hnd.erase k
  · intro x hx
    dsimp only at hx ⊢
    rw [keys_incUse]
    exact hsub x (List.mem_of_mem_erase hx)
  · dsimp only
    rw [keys_incUse]
    exact hknd

/-- Bumping the use_count of an unlinked entry preserves well-formedness (the
case of use_entry on an unlinked entry). -/
theorem incUse_WF (b : Bucket K V) (k : K) (hwf : BucketWF b) (hmem : k ∉ b.lru_list) :
    BucketWF { b with map := incUse b.map k } := by
  obtain ⟨hp1, hnd, hsub, hknd⟩ := hwf
  refine ⟨?_, hnd, ?_, ?_⟩
  · intro e' he'
    dsimp only at he' ⊢
    rcases List.mem_map.mp he' with ⟨e, he, rfl⟩
    by_cases hek : e.key = k
    · rw [if_pos hek]
      dsimp only
      constructor
      · intro hin
        exact absurd (hek ▸ hin) hmem
      · intro h0
        cases h0
    · rw [if_neg hek]
      exact hp1 e he
  · intro x hx
    dsimp only at hx ⊢
    rw [keys_incUse]
    exact hsub x hx
  · dsimp only
    rw [keys_incUse]
    exact hknd

/-- Bucket::use_entry preserves well-formedness. -/
theorem use_entry_WF (b : Bucket K V) (k : K) (hwf : BucketWF b) :
    BucketWF (Bucket.use_entry b k) := by
  by_cases hmem : k ∈ b.lru_list
  · have hru : Bucket.use_entry b k =
        { Bucket.update_maxused
            { b with lru_list := b.lru_list.erase k, cold := b.cold - 1 } with
          map := incUse
            (Bucket.update_maxused
              { b with lru_list := b.lru_list.erase k, cold := b.cold - 1 }).map k } := by
      simp only [Bucket.use_entry, if_pos hmem]
    refine BucketWF_congr
      { b with map := incUse b.map k, lru_list := b.lru_list.erase k }
      (Bucket.use_entry b k) ?_ ?_ (erase_incUse_WF b k hwf)
    · rw [hru]
      show incUse (Bucket.update_maxused _).map k = _
      rw [update_maxused_map]
    · rw [hru]
      show (Bucket.update_maxused _).lru_list = _
      rw [update_maxused_lru]
  · have hru : Bucket.use_entry b k = { b with map := incUse b.map k } := by
      simp only [Bucket.use_entry, if_neg hmem]
    rw [hru]
    exact incUse_WF b k hwf hmem

/-- Bucket::unuse_entry preserves well-formedness. -/
theorem unuse_entry_WF (b : Bucket K V) (k : K) (hwf : BucketWF b) :
    BucketWF (Bucket.unuse_entry b k) := by
  obtain ⟨hp1, hnd, hsub, hknd⟩ := hwf
  simp only [Bucket.unuse_entry]
  by_cases hold : useCount b.map k = 1
  · rw [if_pos hold]
    have hfind : ∃ e ∈ b.map, e.key = k ∧ e.use_count = 1 := by
      unfold useCount at hold
      rcases hf : b.map.find? (fun e => decide (e.key = k)) with _ | e
      · rw [hf] at hold
        cases hold
      · rw [hf] at hold
        refine ⟨e, List.mem_of_find?_eq_some hf, ?_, hold⟩
        have := List.find?_some hf
        simpa using this
    rcases hfind with ⟨e, he, hek, hcnt⟩
    have hknotin : k ∉ b.lru_list := by
      intro hin
      have := (hp1 e he).mp (hek ▸ hin)
      rw [this] at hcnt
      cases hcnt
    refine ⟨?_, ?_, ?_, ?_⟩
    · intro e' he'
      dsimp only at he' ⊢
      rcases List.mem_map.mp he' with ⟨e0, he0, rfl⟩
      by_cases hek0 : e0.key = k
      · rw [if_pos hek0]
        dsimp only
        have : e0.use_count = 1 := by
          have h1 := useCount_eq_of_mem b.map e0 hknd he0
          rw [hek0, hold] at h1
          exact h1.symm
        rw [this]
        simp [hek0]
      · rw [if_neg hek0]
        rw [List.mem_append]
        constructor
        · rintro (h | h)
          · exact (hp1 e0 he0).mp h
          · exact absurd (List.mem_singleton.mp h) hek0
        · intro h
          exact Or.inl ((hp1 e0 he0).mpr h)
    · dsimp only
      refine List.Nodup.append hnd (List.nodup_singleton k) ?_
      intro x hx hxk
      rw [List.mem_singleton.mp hxk] at hx
      exact hknotin hx
    · intro x hx
      dsimp only at hx ⊢
      rw [keys_decUse]
      rcases List.mem_append.mp hx with h | h
      · exact hsub x h
      · rw [List.mem_singleton.mp h]
        exact List.mem_map.mpr ⟨e, he, hek⟩
    · dsimp only
      rw [keys_decUse]
      exact hknd
  · rw [if_neg hold]
    refine ⟨?_, hnd, ?_, ?_⟩
    · intro e' he'
      dsimp only at he' ⊢
      rcases List.mem_map.mp he' with ⟨e0, he0, rfl⟩
      by_cases hek0 : e0.key = k
      · rw [if_pos hek0]
        dsimp only
        have hcnt : useCount b.map k = e0.use_count := by
          have h1 := useCount_eq_of_mem b.map e0 hknd he0
          rw [hek0] at h1
          exact h1
        constructor
        · intro hin
          have h0 := (hp1 e0 he0).mp (hek0 ▸ hin)
          omega
        · intro h0
          have hne : e0.use_count ≠ 1 := by
            rw [← hcnt]
            exact hold
          have h00 : e0.use_count = 0 := by omega
          exact (hp1 e0 he0).mpr h00
      · rw [if_neg hek0]
        exact hp1 e0 he0
    · intro x hx
      dsimp only at hx ⊢
      rw [keys_decUse]
      exact hsub x hx
    · dsimp only
      rw [keys_decUse]
      exact hknd

/-- Dropping a prefix of the LRU list while filtering the corresponding keys
out of the map preserves well-formedness (the shape of Bucket::evict). -/
theorem filter_drop_WF (b : Bucket K V) (n : Nat) (hwf : BucketWF b) :
    BucketWF { b with
      map := b.map.filter (fun e => decide (e.key ∉ b.lru_list.take n))
      lru_list := b.lru_list.drop n } := by
  obtain ⟨hp1, hnd, hsub, hknd⟩ := hwf
  have hdisj : ∀ x, x ∈ b.lru_list.drop n → x ∉ b.lru_list.take n := by
    intro x hxd hxt
    have hnd' : (b.lru_list.take n ++ b.lru_list.drop n).Nodup := by
      rw [List.take_append_drop]
      exact hnd
    exact (List.nodup_append.mp hnd').2.2 hxt hxd
  refine ⟨?_, ?_, ?_, ?_⟩
  · intro e he
    dsimp only at he ⊢
    have hm := List.mem_filter.mp he
    have hnot : e.key ∉ b.lru_list.take n := by simpa using hm.2
    have hiff := hp1 e hm.1
    constructor
    · intro h
      exact hiff.mp (by
        rw [← List.take_append_drop n b.lru_list]
        exact List.mem_append_right _ h)
    · intro h
      have := hiff.mpr h
      rw [← List.take_append_drop n b.lru_list] at this
      rcases List.mem_append.mp this with h' | h'
      · exact absurd h' hnot
      · exact h'
  · exact hnd.sublist (List.drop_sublist n b.lru_list)
  · intro x hx
    dsimp only at hx ⊢
    have hxl : x ∈ b.lru_list := List.mem_of_mem_drop hx
    rcases List.mem_map.mp (hsub x hxl) with ⟨e, he, hek⟩
    refine List.mem_map.mpr ⟨e, List.mem_filter.mpr ⟨he, ?_⟩, hek⟩
    simpa [hek] using hdisj x hx
  · dsimp only
    exact hknd.sublist ((List.filter_sublist b.map).map Entry.key)

/-- Bucket::evict preserves well-formedness. -/
theorem evict_WF (b : Bucket K V) (n : Nat) (hwf : BucketWF b) :
    BucketWF (Bucket.evict b n).2 := by
  obtain ⟨h1, h2, h3, h4⟩ := evict_unfold n b
  exact BucketWF_congr _ _ h3 h2 (filter_drop_WF b n hwf)

/-- Bucket::maybe_evict (spec-modelled) preserves well-formedness. -/
theorem maybe_evict_WF (b : Bucket K V) (hwf : BucketWF b) :
    BucketWF (Bucket.maybe_evict b) := by
  unfold Bucket.maybe_evict
  split_ifs
  · exact hwf
  · exact evict_WF b b.evict_batch hwf
  · exact BucketWF_congr b _ rfl rfl hwf

/-- Inserting a fresh entry (empty value slot, use_count 1) for an absent key
preserves well-formedness (the miss branch of query_or_insert_entry). -/
theorem insert_new_WF (b : Bucket K V) (k : K) (hwf : BucketWF b)
    (hk : hasKey b.map k = false) :
    BucketWF { b with map := b.map ++ [Entry.new k] } := by
  obtain ⟨hp1, hnd, hsub, hknd⟩ := hwf
  have hkn : k ∉ b.map.map Entry.key := by
    intro hmem
    rw [← hasKey_iff] at hmem
    rw [hk] at hmem
    cases hmem
  refine ⟨?_, hnd, ?_, ?_⟩
  · intro e he
    dsimp only at he ⊢
    rcases List.mem_append.mp he with h | h
    · exact hp1 e h
    · rw [List.mem_singleton.mp h]
      constructor
      · intro hin
        exact absurd (List.mem_map.mp (hsub _ hin)) (by
          rintro ⟨e0, he0, hek⟩
          exact hkn (List.mem_map.mpr ⟨e0, he0, hek⟩))
      · intro h0
        cases h0
  · intro x hx
    dsimp only at hx ⊢
    rw [List.map_append]
    exact List.mem_append_left _ (hsub x hx)
  · dsimp only
    rw [List.map_append]
    refine List.Nodup.append hknd (by simp) ?_
    intro x hx hxk
    simp only [List.map_cons, List.map_nil, List.mem_singleton] at hxk
    rw [hxk] at hx
    exact hkn hx

/-- Storing a constructed value preserves well-formedness (keys and use counts
are untouched). -/
theorem setValue_WF (b : Bucket K V) (k : K) (v : V) (hwf : BucketWF b) :
    BucketWF { b with map := setValue b.map k v } := by
  obtain ⟨hp1, hnd, hsub, hknd⟩ := hwf
  refine ⟨?_, hnd, ?_, ?_⟩
  · intro e' he'
    dsimp only at he' ⊢
    rcases List.mem_map.mp he' with ⟨e, he, rfl⟩
    by_cases hek : e.key = k
    · rw [if_pos hek]
      exact hp1 e he
    · rw [if_neg hek]
      exact hp1 e he
  · intro x hx
    dsimp only at hx ⊢
    rw [keys_setValue]
    exact hsub x hx
  · dsimp only
    rw [keys_setValue]
    exact hknd

/-- The bucket read by the facade is well-formed whenever the facade is. -/
theorem getBucket_WF (db : CacheDb K V) (i : Nat) (hdb : DbWF db) :
    BucketWF (db.getBucket i) := by
  unfold CacheDb.getBucket
  rcases h : db.buckets.get? i with _ | b
  · rw [List.getD_eq_get?, h]
    exact BucketWF_new
  · rw [List.getD_eq_get?, h]
    exact hdb b (List.get?_mem h)

/-- Writing back a well-formed bucket keeps the facade well-formed. -/
theorem setBucket_WF (db : CacheDb K V) (i : Nat) (b : Bucket K V)
    (hdb : DbWF db) (hb : BucketWF b) : DbWF (db.setBucket i b) := by
  intro b' hb'
  rcases List.mem_or_eq_of_mem_set hb' with h | rfl
  · exact hdb b' h
  · exact hb

/-- The lookup path preserves facade well-formedness. -/
theorem query_entry_WF (db : CacheDb K V) (bo : K → Nat) (k : K) (hdb : DbWF db)
    (db' : CacheDb K V) (h : CacheDb.query_entry db bo k = Except.ok db') :
    DbWF db' := by
  unfold CacheDb.query_entry at h
  by_cases hk : hasKey (db.getBucket (bo k)).map k
  · rw [if_pos hk] at h
    cases h
    exact setBucket_WF _ _ _ hdb (use_entry_WF _ _ (getBucket_WF db (bo k) hdb))
  · rw [if_neg hk] at h
    cases h

/-- CacheDb::get preserves facade well-formedness. -/
theorem get_state_WF (db : CacheDb K V) (bo : K → Nat) (lockOk : Bool) (k : K)
    (hdb : DbWF db) : DbWF (db.get bo lockOk k).2 := by
  unfold CacheDb.get
  rcases hq : db.query_entry bo k with e | db'
  · exact hdb
  · have h := query_entry_WF db bo k hdb db' hq
    by_cases hl : lockOk <;> simp [hl, h]

/-- CacheDb::get_mut preserves facade well-formedness. -/
theorem get_mut_state_WF (db : CacheDb K V) (bo : K → Nat) (lockOk : Bool) (k : K)
    (hdb : DbWF db) : DbWF (db.get_mut bo lockOk k).2 := by
  unfold CacheDb.get_mut
  rcases hq : db.query_entry bo k with e | db'
  · exact hdb
  · have h := query_entry_WF db bo k hdb db' hq
    by_cases hl : lockOk <;> simp [hl, h]

/-- The lookup-or-insert path preserves facade well-formedness. -/
theorem query_or_insert_WF (db : CacheDb K V) (bo : K → Nat) (k : K)
    (hdb : DbWF db) : DbWF (db.query_or_insert_entry bo k).2 := by
  unfold CacheDb.query_or_insert_entry
  by_cases hk : hasKey (db.getBucket (bo k)).map k
  · simp only [if_pos hk]
    exact setBucket_WF _ _ _ hdb (use_entry_WF _ _ (getBucket_WF db (bo k) hdb))
  · simp only [if_neg hk]
    refine setBucket_WF _ _ _ hdb (insert_new_WF _ _ (getBucket_WF db (bo k) hdb) ?_)
    simpa using hk

/-- The construction protocol tail shared by insert and the get_or_insert
family preserves facade well-formedness: optional maybe_evict, then the
constructor result is stored (or the error propagated). -/
theorem construct_tail_WF {E : Type} (db' : CacheDb K V) (i : Nat)
    (ctor : Except E V) (k : K) (hdb' : DbWF db') :
    DbWF (let db2 :=
      if db'.lru_disabled = 0 then
        db'.setBucket i ((db'.getBucket i).maybe_evict)
      else db'
    match ctor with
    | Except.ok v =>
      db2.setBucket i { db2.getBucket i with map := setValue (db2.getBucket i).map k v }
    | Except.error _ => db2) := by
  have hdb2 : DbWF (if db'.lru_disabled = 0 then
      db'.setBucket i ((db'.getBucket i).maybe_evict) else db') := by
    by_cases hl : db'.lru_disabled = 0
    · rw [if_pos hl]
      exact setBucket_WF _ _ _ hdb' (maybe_evict_WF _ (getBucket_WF db' i hdb'))
    · rw [if_neg hl]
      exact hdb'
  rcases ctor with e | v
  · exact hdb2
  · exact setBucket_WF _ _ _ hdb2 (setValue_WF _ _ _ (getBucket_WF _ i hdb2))

/-- CacheDb::insert preserves facade well-formedness. -/
theorem insert_state_WF {E : Type} (db : CacheDb K V) (bo : K → Nat) (k : K)
    (ctor : Except E V) (hdb : DbWF db) : DbWF (db.insert bo k ctor).2 := by
  unfold CacheDb.insert
  rcases hq : db.query_or_insert_entry bo k with ⟨found, db'⟩
  have hdb' : DbWF db' := by
    have h := query_or_insert_WF db bo k hdb
    rw [hq] at h
    exact h
  cases found
  · have h := construct_tail_WF db' (bo k) ctor k hdb'
    rcases ctor with e | v
    · exact h
    · exact h
  · exact hdb'

/-- The state reached by get_or_insert is the state reached by insert (the
return values differ, the cache state does not). -/
theorem get_or_insert_state_eq {E : Type} (db : CacheDb K V) (bo : K → Nat)
    (lockOk : Bool) (k : K) (ctor : Except E V) :
    (db.get_or_insert bo lockOk k ctor).2 = (db.insert bo k ctor).2 := by
  unfold CacheDb.get_or_insert CacheDb.insert
  rcases hq : db.query_or_insert_entry bo k with ⟨found, db'⟩
  cases found
  · rcases ctor with e | v <;> rfl
  · by_cases hl : lockOk <;> simp [hl]

/-- The state reached by get_or_insert_mut is the state reached by insert. -/
theorem get_or_insert_mut_state_eq {E : Type} (db : CacheDb K V) (bo : K → Nat)
    (lockOk : Bool) (k : K) (ctor : Except E V) :
    (db.get_or_insert_mut bo lockOk k ctor).2 = (db.insert bo k ctor).2 := by
  unfold CacheDb.get_or_insert_mut CacheDb.insert
  rcases hq : db.query_or_insert_entry bo k with ⟨found, db'⟩
  cases found
  · rcases ctor with e | v <;> rfl
  · by_cases hl : lockOk <;> simp [hl]

/-- CacheDb::evict preserves facade well-formedness. -/
theorem evict_state_WF (db : CacheDb K V) (n : Nat) (hdb : DbWF db) :
    DbWF (db.evict n).2 := by
  unfold CacheDb.evict
  by_cases hl : db.lru_disabled = 0
  · rw [if_pos hl]
    simp only [evict_foldl, List.nil_append]
    intro b' hb'
    rcases List.mem_map.mp hb' with ⟨b, hb, rfl⟩
    exact evict_WF b _ (hdb b hb)
  · rw [if_neg hl]
    exact hdb

/-- Guard drop preserves facade well-formedness. -/
theorem unuse_state_WF (db : CacheDb K V) (bo : K → Nat) (k : K) (hdb : DbWF db) :
    DbWF (db.unuse bo k) :=
  setBucket_WF _ _ _ hdb (unuse_entry_WF _ _ (getBucket_WF db (bo k) hdb))

/-- Every public operation preserves facade well-formedness. -/
theorem step_WF {E : Type} (db : CacheDb K V) (bo : K → Nat) (op : Op K V E)
    (hdb : DbWF db) : DbWF (CacheDb.step db bo op) := by
  cases op with
  | get k lockOk => exact get_state_WF db bo lockOk k hdb
  | getMut k lockOk => exact get_mut_state_WF db bo lockOk k hdb
  | insert k ctor => exact insert_state_WF db bo k ctor hdb
  | getOrInsert k lockOk ctor =>
    show DbWF (db.get_or_insert bo lockOk k ctor).2
    rw [get_or_insert_state_eq]
    exact insert_state_WF db bo k ctor hdb
  | getOrInsertMut k lockOk ctor =>
    show DbWF (db.get_or_insert_mut bo lockOk k ctor).2
    rw [get_or_insert_mut_state_eq]
    exact insert_state_WF db bo k ctor hdb
  | evict n => exact evict_state_WF db n hdb
  | guardDrop k => exact unuse_state_WF db bo k hdb

/-- C1: the linked-iff-idle invariant P1 holds in every shard's map after
every public operation.  Formally: starting from a well-formed cache (P1 in
every bucket, plus the structural facts that the LRU lists are duplicate-free,
backed by map entries, and that map keys are unique), any public operation
(get, get_mut, insert, get_or_insert, get_or_insert_mut, evict, or a guard
drop, the latter presupposing an outstanding guard, hence a positive
use_count) yields a cache in which every entry of every bucket's map is linked
in that bucket's LRU list exactly when its use_count is zero — and the full
well-formedness is preserved, so the invariant is inductive. -/
theorem linked_iff_idle_preserved {E : Type} (db : CacheDb K V) (bo : K → Nat)
    (op : Op K V E) (hwf : DbWF db) (hpre : Op.pre db bo op) :
    (∀ b ∈ (CacheDb.step db bo op).buckets, LinkedIffIdle b)
    ∧ DbWF (CacheDb.step db bo op) := by
  have h := step_WF db bo op hwf
  exact ⟨fun b hb => (h b hb).1, h⟩

/-- C1 witness: the preservation theorem applied to the concrete well-formed
cache dbC8 and a guard-drop operation on an entry produced by a prior
insert (the Unit-constructor instantiation of the operation type). -/
theorem linked_iff_idle_preserved_witness :
    (∀ b ∈ (CacheDb.step (CacheDb.step dbC3 boW (Op.get 0 true : Op Nat Nat Unit)) boW
        (Op.guardDrop 0 : Op Nat Nat Unit)).buckets, LinkedIffIdle b)
    ∧ DbWF (CacheDb.step (CacheDb.step dbC3 boW (Op.get 0 true : Op Nat Nat Unit)) boW
        (Op.guardDrop 0 : Op Nat Nat Unit)) := by
  refine linked_iff_idle_preserved _ boW _ ?_ ?_
  · have h := linked_iff_idle_preserved dbC3 boW (Op.get 0 true : Op Nat Nat Unit)
      (by decide) (by constructor)
    exact h.2
  · show 0 < useCount ((CacheDb.step dbC3 boW
      (Op.get 0 true : Op Nat Nat Unit)).getBucket 0).map 0
    decide

end Cachedb
